import Mathlib

/-!
# Verification of the Constrained Monte Carlo integrator (`src/simulate/cmc.cpp`)

This file gives a shallow embedding over the reals of the CMC spin
integrator: the rotation-frame construction `cmc::polar_rot_matrix`, the
per-trial body of `sim::ConstrainedMonteCarlo` (one iteration of the
`mcs` loop, here `CMCStep`), and the per-sweep wrapper that recomputes
`M_other`.  The machine `double` arithmetic is modelled by exact real
arithmetic; the two random site indices, the three Gaussian draws and
the uniform acceptance draw of one trial are passed in as explicit
inputs.  Theorems about the claims of the specification follow the
definitions.
-/

set_option maxHeartbeats 1000000

namespace CMCVerify

/-- A 3-vector of reals: the embedding of a `double[3]` spin or field. -/
@[ext]
structure Vec3 where
  x : ℝ
  y : ℝ
  z : ℝ

namespace Vec3

/-- Componentwise sum of two 3-vectors. -/
def add (u v : Vec3) : Vec3 := ⟨u.x + v.x, u.y + v.y, u.z + v.z⟩

/-- Componentwise difference of two 3-vectors. -/
def sub (u v : Vec3) : Vec3 := ⟨u.x - v.x, u.y - v.y, u.z - v.z⟩

/-- Multiply every component by a scalar (written on the right, as in
`spin1_final[0]*sqrt_ran` in the source). -/
def smul (v : Vec3) (c : ℝ) : Vec3 := ⟨v.x * c, v.y * c, v.z * c⟩

/-- Dot product, as written out at cmc.cpp line 358. -/
def dot (u v : Vec3) : ℝ := u.x * v.x + u.y * v.y + u.z * v.z

/-- Squared Euclidean norm. -/
def normSq (v : Vec3) : ℝ := v.x * v.x + v.y * v.y + v.z * v.z

theorem normSq_nonneg (v : Vec3) : 0 ≤ v.normSq := by
  unfold normSq; nlinarith [sq_nonneg v.x, sq_nonneg v.y, sq_nonneg v.z]

theorem normSq_eq_dot (v : Vec3) : v.normSq = v.dot v := rfl

end Vec3

/-- A 3×3 real matrix with row-major fields: `mRC` is row `R`, column `C`,
matching the `[row][col]` indexing of the copied `ppolar_matrix` in
cmc.cpp lines 271-273. -/
@[ext]
structure Mat3 where
  m00 : ℝ
  m01 : ℝ
  m02 : ℝ
  m10 : ℝ
  m11 : ℝ
  m12 : ℝ
  m20 : ℝ
  m21 : ℝ
  m22 : ℝ

namespace Mat3

/-- Matrix–vector product, exactly the nine-multiply form of
cmc.cpp lines 271-273. -/
def mulVec (A : Mat3) (v : Vec3) : Vec3 :=
  ⟨A.m00 * v.x + A.m01 * v.y + A.m02 * v.z,
   A.m10 * v.x + A.m11 * v.y + A.m12 * v.z,
   A.m20 * v.x + A.m21 * v.y + A.m22 * v.z⟩

/-- Matrix product.  `vmath::matmul` (vmath.hpp is not under src);
modelled from the spec §4.1: "R = R_y(a) · R_z(b) (matrix product, 3×3)". -/
def matmul (A B : Mat3) : Mat3 :=
  ⟨A.m00 * B.m00 + A.m01 * B.m10 + A.m02 * B.m20,
   A.m00 * B.m01 + A.m01 * B.m11 + A.m02 * B.m21,
   A.m00 * B.m02 + A.m01 * B.m12 + A.m02 * B.m22,
   A.m10 * B.m00 + A.m11 * B.m10 + A.m12 * B.m20,
   A.m10 * B.m01 + A.m11 * B.m11 + A.m12 * B.m21,
   A.m10 * B.m02 + A.m11 * B.m12 + A.m12 * B.m22,
   A.m20 * B.m00 + A.m21 * B.m10 + A.m22 * B.m20,
   A.m20 * B.m01 + A.m21 * B.m11 + A.m22 * B.m21,
   A.m20 * B.m02 + A.m21 * B.m12 + A.m22 * B.m22⟩

/-- Transpose.  `vmath::transpose` (vmath.hpp is not under src);
modelled from the spec §4.1: "Rᵀ = transpose(R)". -/
def transpose (A : Mat3) : Mat3 :=
  ⟨A.m00, A.m10, A.m20, A.m01, A.m11, A.m21, A.m02, A.m12, A.m22⟩

/-- Row-vector times matrix: the 1×3 by 3×3 product used for
`polar_vector = vmath::matmul(ref_vec, polar_matrix)`;
modelled from the spec §4.1: "c = ẑ · R, i.e. the third row of R". -/
def rowMul (v : Vec3) (A : Mat3) : Vec3 :=
  ⟨v.x * A.m00 + v.y * A.m10 + v.z * A.m20,
   v.x * A.m01 + v.y * A.m11 + v.z * A.m21,
   v.x * A.m02 + v.y * A.m12 + v.z * A.m22⟩

end Mat3

/-- `vmath::sign` (vmath.hpp is not under src).  Modelled from the spec:
§9 "The `sign()` of s_j^cf.z ... Treat sign(0) = +1", so the result is
−1 for negative arguments and +1 otherwise. -/
noncomputable def vsign (x : ℝ) : ℝ := if x < 0 then -1 else 1

/-- The literal value of `pi` declared in `cmc::polar_rot_matrix`
(cmc.cpp line 78). -/
def cmc_pi : ℝ := 3.14159265358979323846264338327

/-- `y_rotation_matrix` as filled at cmc.cpp lines 121-129
(indexed `[row][col]`). -/
noncomputable def y_rotation_matrix (a : ℝ) : Mat3 :=
  ⟨Real.cos a, 0, -Real.sin a,
   0, 1, 0,
   Real.sin a, 0, Real.cos a⟩

/-- `z_rotation_matrix` as filled at cmc.cpp lines 131-139
(indexed `[row][col]`). -/
noncomputable def z_rotation_matrix (b : ℝ) : Mat3 :=
  ⟨Real.cos b, Real.sin b, 0,
   -Real.sin b, Real.cos b, 0,
   0, 0, 1⟩

/-- `cmc::polar_matrix` as built by `polar_rot_matrix`:
`dy = (phi/360)*2*pi`, `dz = (theta/360)*2*pi` (cmc.cpp lines 84-90) and
`polar_matrix = vmath::matmul(y_rotation_matrix, z_rotation_matrix)`
(line 141). -/
noncomputable def polar_matrix (phi theta : ℝ) : Mat3 :=
  Mat3.matmul (y_rotation_matrix (phi / 360 * 2 * cmc_pi))
    (z_rotation_matrix (theta / 360 * 2 * cmc_pi))

/-- `cmc::polar_matrix_tp = vmath::transpose(polar_matrix)` (cmc.cpp line 142). -/
noncomputable def polar_matrix_tp (phi theta : ℝ) : Mat3 :=
  (polar_matrix phi theta).transpose

/-- `cmc::polar_vector = vmath::matmul(ref_vec, polar_matrix)` with
`ref_vec = (0,0,1)` (cmc.cpp lines 92-94 and 143). -/
noncomputable def polar_vector (phi theta : ℝ) : Vec3 :=
  Mat3.rowMul ⟨0, 0, 1⟩ (polar_matrix phi theta)

/-- The fixed parameters read by `sim::ConstrainedMonteCarlo`:
`atoms::num_atoms`, `sim::temperature`, `atoms::type_array`,
`mp::material[.].mu_s_SI`, the energy oracle
`sim::calculate_spin_energy` (a function of the site and the current
spin field), and the constraint angles. -/
structure CMCParams where
  num_atoms : ℕ
  temperature : ℝ
  type_array : ℕ → ℕ
  mu_s_SI : ℕ → ℝ
  calculate_spin_energy : ℕ → (ℕ → Vec3) → ℝ
  constraint_phi : ℝ
  constraint_theta : ℝ

/-- The random draws consumed by one iteration of the trial loop:
the two site indices (`int(mtrandom::grnd()*num_atoms)`), the three
Gaussian components added to spin 1, and the uniform draw compared
against `probability`. -/
structure TrialInput where
  atom_number1 : ℕ
  atom_number2 : ℕ
  g : Vec3
  u : ℝ

/-- The mutable state of the integrator: the spin field
(`atoms::{x,y,z}_spin_array`), the running magnetization `M_other`, and
the four statistics counters of namespace `cmc` (doubles in the source). -/
structure CMCState where
  spins : ℕ → Vec3
  M_other : Vec3
  mc_success : ℝ
  mc_total : ℝ
  sphere_reject : ℝ
  energy_reject : ℝ

/-- `ppolar_matrix`: the copied rotation matrix (cmc.cpp lines 239-245). -/
noncomputable def ppolar_matrix (p : CMCParams) : Mat3 :=
  polar_matrix p.constraint_phi p.constraint_theta

/-- `ppolar_matrix_tp`: the copied transposed matrix. -/
noncomputable def ppolar_matrix_tp (p : CMCParams) : Mat3 :=
  polar_matrix_tp p.constraint_phi p.constraint_theta

/-- `ppolar_vector`: the copied constraint vector. -/
noncomputable def ppolar_vector (p : CMCParams) : Vec3 :=
  polar_vector p.constraint_phi p.constraint_theta

/-- `kBTBohr = 9.27400915e-24/(sim::temperature*1.3806503e-23)`
(cmc.cpp line 232). -/
noncomputable def kBTBohr (p : CMCParams) : ℝ :=
  9.27400915e-24 / (p.temperature * 1.3806503e-23)

/-- `spin1_initial`: snapshot of site 1 (cmc.cpp lines 266-268). -/
def spin1_initial (inp : TrialInput) (st : CMCState) : Vec3 :=
  st.spins inp.atom_number1

/-- The trial vector `gaussian() + spin` before normalization
(cmc.cpp lines 276-278). -/
def spin1_pre (inp : TrialInput) (st : CMCState) : Vec3 :=
  Vec3.add inp.g (spin1_initial inp st)

/-- `sqrt_ran = 1/sqrt(‖spin1_final‖²)` (cmc.cpp line 280). -/
noncomputable def sqrt_ran (inp : TrialInput) (st : CMCState) : ℝ :=
  1 / Real.sqrt (spin1_pre inp st).normSq

/-- `spin1_final` after normalization (cmc.cpp lines 282-284). -/
noncomputable def spin1_final (inp : TrialInput) (st : CMCState) : Vec3 :=
  (spin1_pre inp st).smul (sqrt_ran inp st)

/-- `spin1_init_mvd = polar_matrix · spin1_initial` (cmc.cpp lines 271-273). -/
noncomputable def spin1_init_mvd (p : CMCParams) (inp : TrialInput) (st : CMCState) : Vec3 :=
  (ppolar_matrix p).mulVec (spin1_initial inp st)

/-- `spin1_fin_mvd = polar_matrix · spin1_final` (cmc.cpp lines 287-289). -/
noncomputable def spin1_fin_mvd (p : CMCParams) (inp : TrialInput) (st : CMCState) : Vec3 :=
  (ppolar_matrix p).mulVec (spin1_final inp st)

/-- The spin field after the provisional write of `spin1_final` to site 1
(cmc.cpp lines 298-300). -/
noncomputable def spins_after1 (inp : TrialInput) (st : CMCState) : ℕ → Vec3 :=
  Function.update st.spins inp.atom_number1 (spin1_final inp st)

/-- `delta_energy1 = (Enew-Eold)*mu_s_SI*1.07828231e23` for site 1
(cmc.cpp lines 295-306): `Eold` against the entry field, `Enew` against
the field with the provisional site-1 write. -/
noncomputable def delta_energy1 (p : CMCParams) (inp : TrialInput) (st : CMCState) : ℝ :=
  (p.calculate_spin_energy inp.atom_number1 (spins_after1 inp st) -
      p.calculate_spin_energy inp.atom_number1 st.spins) *
    p.mu_s_SI (p.type_array inp.atom_number1) * 1.07828231e23

/-- `spin2_initial`: snapshot of site 2, read after the provisional
site-1 write (cmc.cpp lines 314-316). -/
noncomputable def spin2_initial (inp : TrialInput) (st : CMCState) : Vec3 :=
  spins_after1 inp st inp.atom_number2

/-- `spin2_init_mvd = polar_matrix · spin2_initial` (cmc.cpp lines 319-321). -/
noncomputable def spin2_init_mvd (p : CMCParams) (inp : TrialInput) (st : CMCState) : Vec3 :=
  (ppolar_matrix p).mulVec (spin2_initial inp st)

/-- `spin2_fin_mvd[0]` from the constraint `Mx = My = 0` (cmc.cpp line 324). -/
noncomputable def spin2_fin_x (p : CMCParams) (inp : TrialInput) (st : CMCState) : ℝ :=
  (spin1_init_mvd p inp st).x + (spin2_init_mvd p inp st).x - (spin1_fin_mvd p inp st).x

/-- `spin2_fin_mvd[1]` from the constraint `Mx = My = 0` (cmc.cpp line 325). -/
noncomputable def spin2_fin_y (p : CMCParams) (inp : TrialInput) (st : CMCState) : ℝ :=
  (spin1_init_mvd p inp st).y + (spin2_init_mvd p inp st).y - (spin1_fin_mvd p inp st).y

/-- `spin2_fin_mvd[2] = sign(spin2_init_mvd[2]) * sqrt(1 - x² - y²)`
(cmc.cpp line 329). -/
noncomputable def spin2_fin_z (p : CMCParams) (inp : TrialInput) (st : CMCState) : ℝ :=
  vsign (spin2_init_mvd p inp st).z *
    Real.sqrt (1 - spin2_fin_x p inp st * spin2_fin_x p inp st -
      spin2_fin_y p inp st * spin2_fin_y p inp st)

/-- The full constraint-frame proposal for site 2. -/
noncomputable def spin2_fin_mvd (p : CMCParams) (inp : TrialInput) (st : CMCState) : Vec3 :=
  ⟨spin2_fin_x p inp st, spin2_fin_y p inp st, spin2_fin_z p inp st⟩

/-- `spin2_final = polar_matrix_tp · spin2_fin_mvd` (cmc.cpp lines 332-334). -/
noncomputable def spin2_final (p : CMCParams) (inp : TrialInput) (st : CMCState) : Vec3 :=
  (ppolar_matrix_tp p).mulVec (spin2_fin_mvd p inp st)

/-- The spin field after the provisional write of `spin2_final` to site 2
(cmc.cpp lines 344-346). -/
noncomputable def spins_after2 (p : CMCParams) (inp : TrialInput) (st : CMCState) : ℕ → Vec3 :=
  Function.update (spins_after1 inp st) inp.atom_number2 (spin2_final p inp st)

/-- `delta_energy2` for site 2 (cmc.cpp lines 341-352). -/
noncomputable def delta_energy2 (p : CMCParams) (inp : TrialInput) (st : CMCState) : ℝ :=
  (p.calculate_spin_energy inp.atom_number2 (spins_after2 p inp st) -
      p.calculate_spin_energy inp.atom_number2 (spins_after1 inp st)) *
    p.mu_s_SI (p.type_array inp.atom_number2) * 1.07828231e23

/-- `delta_energy21 = delta_energy1 + delta_energy2` (cmc.cpp line 355). -/
noncomputable def delta_energy21 (p : CMCParams) (inp : TrialInput) (st : CMCState) : ℝ :=
  delta_energy1 p inp st + delta_energy2 p inp st

/-- `Mz_old = M_other · polar_vector` (cmc.cpp line 358). -/
noncomputable def Mz_old (p : CMCParams) (st : CMCState) : ℝ :=
  st.M_other.dot (ppolar_vector p)

/-- The lab-frame change of the total magnetization caused by the pair
move: `spin1_final + spin2_final - spin1_initial - spin2_initial`, the
vector added to `M_other` at cmc.cpp lines 372-374. -/
noncomputable def deltaM (p : CMCParams) (inp : TrialInput) (st : CMCState) : Vec3 :=
  Vec3.sub (Vec3.sub (Vec3.add (spin1_final inp st) (spin2_final p inp st))
      (spin1_initial inp st))
    (spin2_initial inp st)

/-- `Mz_new = (M_other + Δ) · polar_vector` (cmc.cpp lines 360-362). -/
noncomputable def Mz_new (p : CMCParams) (inp : TrialInput) (st : CMCState) : ℝ :=
  (Vec3.add st.M_other (deltaM p inp st)).dot (ppolar_vector p)

/-- `probability = exp(-ΔE·kBTBohr)·(Mz_new/Mz_old)²·|spin2_init_mvd[2]/spin2_fin_mvd[2]|`
(cmc.cpp line 370). -/
noncomputable def probability (p : CMCParams) (inp : TrialInput) (st : CMCState) : ℝ :=
  Real.exp (-delta_energy21 p inp st * kBTBohr p) *
    (Mz_new p inp st / Mz_old p st * (Mz_new p inp st / Mz_old p st)) *
    |(spin2_init_mvd p inp st).z / spin2_fin_z p inp st|

/-- One iteration of the trial loop of `sim::ConstrainedMonteCarlo`
(cmc.cpp lines 260-401), as a function of the trial's random inputs:

* sphere branch (line 327 fails): restore site 1, `sphere_reject += 1`,
  `mc_total += 1`;
* `delta_energy21 < 0` (line 365): `continue` — both provisional writes
  are kept, nothing else is touched;
* Metropolis test (lines 370-371): on success update `M_other`,
  `mc_success += 1`, `mc_total += 1`; otherwise restore both sites,
  `energy_reject += 1`, `mc_total += 1`. -/
noncomputable def CMCStep (p : CMCParams) (inp : TrialInput) (st : CMCState) : CMCState :=
  if spin2_fin_x p inp st * spin2_fin_x p inp st +
      spin2_fin_y p inp st * spin2_fin_y p inp st < 1 ∧
      inp.atom_number1 ≠ inp.atom_number2 then
    if delta_energy21 p inp st < 0 then
      { st with spins := spins_after2 p inp st }
    else if probability p inp st ≥ inp.u ∧ Mz_new p inp st ≥ 0 then
      { st with spins := spins_after2 p inp st,
                M_other := Vec3.add st.M_other (deltaM p inp st),
                mc_success := st.mc_success + 1,
                mc_total := st.mc_total + 1 }
    else
      { st with spins := Function.update
                  (Function.update (spins_after2 p inp st) inp.atom_number1
                    (spin1_initial inp st))
                  inp.atom_number2 (spin2_initial inp st),
                energy_reject := st.energy_reject + 1,
                mc_total := st.mc_total + 1 }
  else
    { st with spins := Function.update (spins_after1 inp st) inp.atom_number1
                (spin1_initial inp st),
              sphere_reject := st.sphere_reject + 1,
              mc_total := st.mc_total + 1 }

/-- Modelled from the spec: the prescribed trial step of §4.5, which —
unlike the source — evaluates the acceptance criterion in full for every
geometrically valid pair move (steps 8-9: "Accept iff Mz_new ≥ 0 AND
P ≥ uniform() ... the criterion is evaluated in full — there is no
short-circuit unconditional accept", and "In all paths
total_trials += 1").  The quantities it tests are the same embedded
quantities as in `CMCStep`. -/
noncomputable def CMCStepSpec (p : CMCParams) (inp : TrialInput) (st : CMCState) : CMCState :=
  if spin2_fin_x p inp st * spin2_fin_x p inp st +
      spin2_fin_y p inp st * spin2_fin_y p inp st < 1 ∧
      inp.atom_number1 ≠ inp.atom_number2 then
    if probability p inp st ≥ inp.u ∧ Mz_new p inp st ≥ 0 then
      { st with spins := spins_after2 p inp st,
                M_other := Vec3.add st.M_other (deltaM p inp st),
                mc_success := st.mc_success + 1,
                mc_total := st.mc_total + 1 }
    else
      { st with spins := Function.update
                  (Function.update (spins_after2 p inp st) inp.atom_number1
                    (spin1_initial inp st))
                  inp.atom_number2 (spin2_initial inp st),
                energy_reject := st.energy_reject + 1,
                mc_total := st.mc_total + 1 }
  else
    { st with spins := Function.update (spins_after1 inp st) inp.atom_number1
                (spin1_initial inp st),
              sphere_reject := st.sphere_reject + 1,
              mc_total := st.mc_total + 1 }

/-- The sum of the first `n` spins of a field, componentwise. -/
def spinSum (n : ℕ) (f : ℕ → Vec3) : Vec3 :=
  ⟨∑ i ∈ Finset.range n, (f i).x,
   ∑ i ∈ Finset.range n, (f i).y,
   ∑ i ∈ Finset.range n, (f i).z⟩

/-- The initialization loop for `M_other` at the top of
`sim::ConstrainedMonteCarlo` (cmc.cpp lines 250-258): start from zero
and accumulate every current spin. -/
def M_other_init (n : ℕ) (f : ℕ → Vec3) : Vec3 :=
  (List.range n).foldl (fun M a => Vec3.add M (f a)) ⟨0, 0, 0⟩

/-- One call of `sim::ConstrainedMonteCarlo`: recompute `M_other` from
the current spin field (cmc.cpp lines 250-258) — discarding whatever
magnetization value the incoming state carries — then run the trial loop
over the supplied list of per-trial random inputs (one sweep passes
`num_atoms` of them). -/
noncomputable def ConstrainedMonteCarlo (p : CMCParams) (inps : List TrialInput)
    (st : CMCState) : CMCState :=
  List.foldl (fun s i => CMCStep p i s)
    { st with M_other := M_other_init p.num_atoms st.spins } inps

/-! ## Algebraic facts about the embedded vector and matrix operations -/

namespace Mat3

theorem mulVec_matmul (A B : Mat3) (v : Vec3) :
    (A.matmul B).mulVec v = A.mulVec (B.mulVec v) := by
  ext <;> simp [matmul, mulVec] <;> ring

theorem transpose_matmul (A B : Mat3) :
    (A.matmul B).transpose = Mat3.matmul B.transpose A.transpose := by
  ext <;> simp [matmul, transpose] <;> ring

theorem transpose_transpose (A : Mat3) : A.transpose.transpose = A := rfl

theorem mulVec_add (A : Mat3) (u v : Vec3) :
    A.mulVec (Vec3.add u v) = Vec3.add (A.mulVec u) (A.mulVec v) := by
  ext <;> simp [mulVec, Vec3.add] <;> ring

theorem mulVec_sub (A : Mat3) (u v : Vec3) :
    A.mulVec (Vec3.sub u v) = Vec3.sub (A.mulVec u) (A.mulVec v) := by
  ext <;> simp [mulVec, Vec3.sub] <;> ring

theorem dot_mulVec (A : Mat3) (u v : Vec3) :
    Vec3.dot (A.mulVec u) v = Vec3.dot u (A.transpose.mulVec v) := by
  simp [Vec3.dot, mulVec, transpose]; ring

end Mat3

theorem Vec3.normSq_smul (v : Vec3) (c : ℝ) :
    (v.smul c).normSq = v.normSq * (c * c) := by
  simp [Vec3.smul, Vec3.normSq]; ring

theorem vsign_mul_self (x : ℝ) : vsign x * vsign x = 1 := by
  unfold vsign; split_ifs <;> norm_num

theorem vsign_ne_zero (x : ℝ) : vsign x ≠ 0 := by
  unfold vsign; split_ifs <;> norm_num

/-- The y-rotation block is orthogonal: applying it after its transpose
is the identity. -/
theorem y_rot_orth (a : ℝ) (v : Vec3) :
    (y_rotation_matrix a).mulVec ((y_rotation_matrix a).transpose.mulVec v) = v := by
  have h := Real.sin_sq_add_cos_sq a
  ext
  · simp [y_rotation_matrix, Mat3.mulVec, Mat3.transpose]
    linear_combination v.x * h
  · simp [y_rotation_matrix, Mat3.mulVec, Mat3.transpose]
  · simp [y_rotation_matrix, Mat3.mulVec, Mat3.transpose]
    linear_combination v.z * h

/-- The z-rotation block is orthogonal. -/
theorem z_rot_orth (b : ℝ) (v : Vec3) :
    (z_rotation_matrix b).mulVec ((z_rotation_matrix b).transpose.mulVec v) = v := by
  have h := Real.sin_sq_add_cos_sq b
  ext
  · simp [z_rotation_matrix, Mat3.mulVec, Mat3.transpose]
    linear_combination v.x * h
  · simp [z_rotation_matrix, Mat3.mulVec, Mat3.transpose]
    linear_combination v.y * h
  · simp [z_rotation_matrix, Mat3.mulVec, Mat3.transpose]

/-- `polar_matrix · polar_matrix_tp = I`, at the level of vectors: the
rotation pair built by `polar_rot_matrix` inverts itself exactly in real
arithmetic. -/
theorem polar_RRt (phi theta : ℝ) (v : Vec3) :
    (polar_matrix phi theta).mulVec ((polar_matrix_tp phi theta).mulVec v) = v := by
  rw [polar_matrix_tp, polar_matrix, Mat3.transpose_matmul, Mat3.mulVec_matmul,
    Mat3.mulVec_matmul, z_rot_orth, y_rot_orth]

theorem ppolar_RRt (p : CMCParams) (v : Vec3) :
    (ppolar_matrix p).mulVec ((ppolar_matrix_tp p).mulVec v) = v :=
  polar_RRt _ _ v

/-- Mapping back from the constraint frame preserves the squared norm. -/
theorem normSq_mulVec_tp (phi theta : ℝ) (v : Vec3) :
    ((polar_matrix_tp phi theta).mulVec v).normSq = v.normSq := by
  rw [Vec3.normSq_eq_dot, Vec3.normSq_eq_dot, Mat3.dot_mulVec]
  have htp : (polar_matrix_tp phi theta).transpose = polar_matrix phi theta := by
    rw [polar_matrix_tp, Mat3.transpose_transpose]
  rw [htp, polar_RRt]

/-! ## Sums over the spin field -/

theorem sum_range_update (n i : ℕ) (g : ℕ → ℝ) (b : ℝ) (h : i < n) :
    ∑ j ∈ Finset.range n, Function.update g i b j =
      (∑ j ∈ Finset.range n, g j) - g i + b := by
  have hm : i ∈ Finset.range n := Finset.mem_range.mpr h
  rw [Finset.sum_update_of_mem hm, Finset.sum_eq_sum_diff_singleton_add hm g]
  ring

theorem spinSum_update (n : ℕ) (f : ℕ → Vec3) (i : ℕ) (v : Vec3) (h : i < n) :
    spinSum n (Function.update f i v) = Vec3.add (Vec3.sub (spinSum n f) (f i)) v := by
  have hx : ∀ j, (Function.update f i v j).x = Function.update (fun k => (f k).x) i v.x j := by
    intro j
    rcases eq_or_ne j i with rfl | hj
    · simp
    · rw [Function.update_noteq hj, Function.update_noteq hj]
  have hy : ∀ j, (Function.update f i v j).y = Function.update (fun k => (f k).y) i v.y j := by
    intro j
    rcases eq_or_ne j i with rfl | hj
    · simp
    · rw [Function.update_noteq hj, Function.update_noteq hj]
  have hz : ∀ j, (Function.update f i v j).z = Function.update (fun k => (f k).z) i v.z j := by
    intro j
    rcases eq_or_ne j i with rfl | hj
    · simp
    · rw [Function.update_noteq hj, Function.update_noteq hj]
  ext
  · simp only [spinSum, Vec3.add, Vec3.sub]
    rw [Finset.sum_congr rfl fun j _ => hx j, sum_range_update n i _ _ h]
  · simp only [spinSum, Vec3.add, Vec3.sub]
    rw [Finset.sum_congr rfl fun j _ => hy j, sum_range_update n i _ _ h]
  · simp only [spinSum, Vec3.add, Vec3.sub]
    rw [Finset.sum_congr rfl fun j _ => hz j, sum_range_update n i _ _ h]

/-! ## Restores: the reject paths put the field back -/

/-- Sphere reject restores site 1, leaving the field exactly as at entry. -/
theorem sphere_restore (inp : TrialInput) (st : CMCState) :
    Function.update (spins_after1 inp st) inp.atom_number1 (spin1_initial inp st) =
      st.spins := by
  rw [spins_after1, Function.update_idem, spin1_initial, Function.update_eq_self]

/-- Energy reject restores both sites, leaving the field exactly as at
entry (the two sites are distinct on this path). -/
theorem energy_restore (p : CMCParams) (inp : TrialInput) (st : CMCState)
    (hne : inp.atom_number1 ≠ inp.atom_number2) :
    Function.update (Function.update (spins_after2 p inp st) inp.atom_number1
        (spin1_initial inp st)) inp.atom_number2 (spin2_initial inp st) =
      st.spins := by
  funext j
  rcases eq_or_ne j inp.atom_number2 with rfl | hj2
  · rw [Function.update_same, spin2_initial, spins_after1,
      Function.update_noteq (Ne.symm hne)]
  · rw [Function.update_noteq hj2]
    rcases eq_or_ne j inp.atom_number1 with rfl | hj1
    · rw [Function.update_same, spin1_initial]
    · rw [Function.update_noteq hj1, spins_after2, Function.update_noteq hj2,
        spins_after1, Function.update_noteq hj1]

/-! ## Unit norms of the proposed spins -/

theorem normSq_spin1_final (inp : TrialInput) (st : CMCState)
    (ht : (spin1_pre inp st).normSq ≠ 0) : (spin1_final inp st).normSq = 1 := by
  have h0 : 0 ≤ (spin1_pre inp st).normSq := Vec3.normSq_nonneg _
  rw [spin1_final, Vec3.normSq_smul, sqrt_ran, div_mul_div_comm, one_mul,
    Real.mul_self_sqrt h0, mul_one_div, div_self ht]

theorem normSq_spin2_fin_mvd (p : CMCParams) (inp : TrialInput) (st : CMCState)
    (h : spin2_fin_x p inp st * spin2_fin_x p inp st +
      spin2_fin_y p inp st * spin2_fin_y p inp st < 1) :
    (spin2_fin_mvd p inp st).normSq = 1 := by
  have harg : 0 ≤ 1 - spin2_fin_x p inp st * spin2_fin_x p inp st -
      spin2_fin_y p inp st * spin2_fin_y p inp st := by linarith
  have hz : spin2_fin_z p inp st * spin2_fin_z p inp st =
      1 - spin2_fin_x p inp st * spin2_fin_x p inp st -
        spin2_fin_y p inp st * spin2_fin_y p inp st := by
    rw [spin2_fin_z]
    calc vsign (spin2_init_mvd p inp st).z * Real.sqrt _ *
          (vsign (spin2_init_mvd p inp st).z * Real.sqrt _) =
        vsign (spin2_init_mvd p inp st).z * vsign (spin2_init_mvd p inp st).z *
          (Real.sqrt _ * Real.sqrt _) := by ring
      _ = _ := by rw [vsign_mul_self, one_mul, Real.mul_self_sqrt harg]
  simp only [spin2_fin_mvd, Vec3.normSq]
  rw [hz]; ring

theorem spin2_fin_z_ne_zero (p : CMCParams) (inp : TrialInput) (st : CMCState)
    (h : spin2_fin_x p inp st * spin2_fin_x p inp st +
      spin2_fin_y p inp st * spin2_fin_y p inp st < 1) :
    spin2_fin_z p inp st ≠ 0 := by
  rw [spin2_fin_z]
  exact mul_ne_zero (vsign_ne_zero _)
    (ne_of_gt (Real.sqrt_pos.mpr (by linarith)))

theorem normSq_spin2_final (p : CMCParams) (inp : TrialInput) (st : CMCState)
    (h : spin2_fin_x p inp st * spin2_fin_x p inp st +
      spin2_fin_y p inp st * spin2_fin_y p inp st < 1) :
    (spin2_final p inp st).normSq = 1 := by
  rw [spin2_final, ppolar_matrix_tp, normSq_mulVec_tp, normSq_spin2_fin_mvd p inp st h]

theorem Vec3.add_sub_cancel_left (u v : Vec3) : Vec3.sub (Vec3.add u v) u = v := by
  ext <;> simp [Vec3.add, Vec3.sub]

theorem Vec3.sub_self_vec (v : Vec3) : Vec3.sub v v = ⟨0, 0, 0⟩ := by
  ext <;> simp [Vec3.sub]

theorem Mat3.mulVec_zero_vec (A : Mat3) : A.mulVec ⟨0, 0, 0⟩ = ⟨0, 0, 0⟩ := by
  ext <;> simp [Mat3.mulVec]

/-! ## Branch facts about `CMCStep` -/

/-- The `delta_energy21 < 0` branch of the trial loop (cmc.cpp line 365):
`continue` keeps both provisional writes and touches nothing else — no
counter is incremented and `M_other` is not updated. -/
theorem CMCStep_quick_accept (p : CMCParams) (inp : TrialInput) (st : CMCState)
    (hok : spin2_fin_x p inp st * spin2_fin_x p inp st +
      spin2_fin_y p inp st * spin2_fin_y p inp st < 1 ∧
      inp.atom_number1 ≠ inp.atom_number2)
    (hneg : delta_energy21 p inp st < 0) :
    CMCStep p inp st = { st with spins := spins_after2 p inp st } := by
  unfold CMCStep
  rw [if_pos hok, if_pos hneg]

/-- The in-plane constraint-frame components of the pair move's
magnetization change vanish exactly: this is the algebraic content of
cmc.cpp lines 324-325 combined with orthogonality of the rotation. -/
theorem RdeltaM_inplane (p : CMCParams) (inp : TrialInput) (st : CMCState) :
    ((ppolar_matrix p).mulVec (deltaM p inp st)).x = 0 ∧
    ((ppolar_matrix p).mulVec (deltaM p inp st)).y = 0 := by
  have h2 : (ppolar_matrix p).mulVec (spin2_final p inp st) = spin2_fin_mvd p inp st := by
    rw [spin2_final]; exact ppolar_RRt p _
  rw [deltaM, Mat3.mulVec_sub, Mat3.mulVec_sub, Mat3.mulVec_add, h2]
  constructor
  · simp only [Vec3.sub, Vec3.add, spin2_fin_mvd, spin2_fin_x, spin1_init_mvd,
      spin2_init_mvd, spin1_fin_mvd]
    ring
  · simp only [Vec3.sub, Vec3.add, spin2_fin_mvd, spin2_fin_y, spin1_init_mvd,
      spin2_init_mvd, spin1_fin_mvd]
    ring

/-- Committing both provisional writes changes the spin sum by exactly
`deltaM`. -/
theorem spinSum_after2 (n : ℕ) (p : CMCParams) (inp : TrialInput) (st : CMCState)
    (h1 : inp.atom_number1 < n) (h2 : inp.atom_number2 < n)
    (hne : inp.atom_number1 ≠ inp.atom_number2) :
    spinSum n (spins_after2 p inp st) =
      Vec3.add (spinSum n st.spins) (deltaM p inp st) := by
  have e2 : spin2_initial inp st = st.spins inp.atom_number2 := by
    rw [spin2_initial, spins_after1, Function.update_noteq (Ne.symm hne)]
  rw [spins_after2, spinSum_update n _ _ _ h2]
  rw [show spins_after1 inp st inp.atom_number2 = st.spins inp.atom_number2 from by
    rw [spins_after1, Function.update_noteq (Ne.symm hne)]]
  rw [spins_after1, spinSum_update n _ _ _ h1]
  rw [deltaM, e2, spin1_initial]
  ext <;> simp [Vec3.add, Vec3.sub] <;> ring

/-! ## Concrete inputs for evaluation

Two atoms, constraint along +z (`phi = theta = 0`), temperature 300 K.
The trial flips site 0 from +z to −z (Gaussian draw `(0,0,−2)`), and the
compensating move leaves site 1 unchanged.  With the oracle
`E(a) = s_a.z` the pair move lowers the energy, driving the trial into
the `delta_energy21 < 0` branch. -/

noncomputable def P0 : CMCParams :=
  { num_atoms := 2, temperature := 300, type_array := fun _ => 0,
    mu_s_SI := fun _ => 1,
    calculate_spin_energy := fun a f => (f a).z,
    constraint_phi := 0, constraint_theta := 0 }

/-- Same geometry as `P0` but with a zero energy oracle, so every pair
move has `delta_energy21 = 0`. -/
noncomputable def P1 : CMCParams := { P0 with calculate_spin_energy := fun _ _ => 0 }

/-- The trial: site 0 then site 1, Gaussian draw `(0,0,−2)`, uniform
draw `1/2`. -/
noncomputable def I0 : TrialInput := { atom_number1 := 0, atom_number2 := 1, g := ⟨0, 0, -2⟩, u := 1/2 }

/-- A trial that selects the same site twice (`j = i`), which must be a
sphere reject. -/
noncomputable def I2 : TrialInput := { atom_number1 := 0, atom_number2 := 0, g := ⟨0, 0, -2⟩, u := 1/2 }

/-- The entry state: both spins along +z, `M_other` consistent, all
counters zero. -/
noncomputable def S0 : CMCState :=
  { spins := fun _ => ⟨0, 0, 1⟩, M_other := ⟨0, 0, 2⟩,
    mc_success := 0, mc_total := 0, sphere_reject := 0, energy_reject := 0 }

/-- The 3×3 identity matrix. -/
def id3 : Mat3 := ⟨1, 0, 0, 0, 1, 0, 0, 0, 1⟩

theorem mulVec_id3 (v : Vec3) : id3.mulVec v = v := by
  ext <;> simp [id3, Mat3.mulVec]

theorem ppolar_matrix_P0 : ppolar_matrix P0 = id3 := by
  have h0 : (0 : ℝ) / 360 * 2 * cmc_pi = 0 := by norm_num
  rw [ppolar_matrix]
  show polar_matrix 0 0 = id3
  rw [polar_matrix, h0]
  ext <;> simp [y_rotation_matrix, z_rotation_matrix, Mat3.matmul, id3]

theorem ppolar_matrix_tp_P0 : ppolar_matrix_tp P0 = id3 := by
  show (ppolar_matrix P0).transpose = id3
  rw [ppolar_matrix_P0]
  ext <;> simp [id3, Mat3.transpose]

theorem ppolar_vector_P0 : ppolar_vector P0 = ⟨0, 0, 1⟩ := by
  show Mat3.rowMul ⟨0, 0, 1⟩ (ppolar_matrix P0) = ⟨0, 0, 1⟩
  rw [ppolar_matrix_P0]
  ext <;> simp [Mat3.rowMul, id3]

theorem spin1_initial_I0_S0 : spin1_initial I0 S0 = ⟨0, 0, 1⟩ := rfl

theorem spin1_pre_I0_S0 : spin1_pre I0 S0 = ⟨0, 0, -1⟩ := by
  rw [spin1_pre, spin1_initial_I0_S0]
  ext <;> norm_num [I0, Vec3.add]

theorem sqrt_ran_I0_S0 : sqrt_ran I0 S0 = 1 := by
  rw [sqrt_ran, spin1_pre_I0_S0]
  norm_num [Vec3.normSq, Real.sqrt_one]

theorem spin1_final_I0_S0 : spin1_final I0 S0 = ⟨0, 0, -1⟩ := by
  rw [spin1_final, sqrt_ran_I0_S0, spin1_pre_I0_S0]
  ext <;> norm_num [Vec3.smul]

theorem spin2_initial_I0_S0 : spin2_initial I0 S0 = ⟨0, 0, 1⟩ := by
  rw [spin2_initial, spins_after1,
    Function.update_noteq (show I0.atom_number2 ≠ I0.atom_number1 by norm_num [I0])]
  rfl

theorem spin1_init_mvd_P0 : spin1_init_mvd P0 I0 S0 = ⟨0, 0, 1⟩ := by
  rw [spin1_init_mvd, ppolar_matrix_P0, spin1_initial_I0_S0, mulVec_id3]

theorem spin1_fin_mvd_P0 : spin1_fin_mvd P0 I0 S0 = ⟨0, 0, -1⟩ := by
  rw [spin1_fin_mvd, ppolar_matrix_P0, spin1_final_I0_S0, mulVec_id3]

theorem spin2_init_mvd_P0 : spin2_init_mvd P0 I0 S0 = ⟨0, 0, 1⟩ := by
  rw [spin2_init_mvd, ppolar_matrix_P0, spin2_initial_I0_S0, mulVec_id3]

theorem spin2_fin_x_P0 : spin2_fin_x P0 I0 S0 = 0 := by
  rw [spin2_fin_x, spin1_init_mvd_P0, spin2_init_mvd_P0, spin1_fin_mvd_P0]
  norm_num

theorem spin2_fin_y_P0 : spin2_fin_y P0 I0 S0 = 0 := by
  rw [spin2_fin_y, spin1_init_mvd_P0, spin2_init_mvd_P0, spin1_fin_mvd_P0]
  norm_num

theorem spin2_fin_z_P0 : spin2_fin_z P0 I0 S0 = 1 := by
  rw [spin2_fin_z, spin2_init_mvd_P0, spin2_fin_x_P0, spin2_fin_y_P0]
  norm_num [vsign, Real.sqrt_one]

theorem spin2_fin_mvd_P0 : spin2_fin_mvd P0 I0 S0 = ⟨0, 0, 1⟩ := by
  rw [spin2_fin_mvd, spin2_fin_x_P0, spin2_fin_y_P0, spin2_fin_z_P0]

theorem spin2_final_P0 : spin2_final P0 I0 S0 = ⟨0, 0, 1⟩ := by
  rw [spin2_final, ppolar_matrix_tp_P0, spin2_fin_mvd_P0, mulVec_id3]

theorem deltaM_P0 : deltaM P0 I0 S0 = ⟨0, 0, -2⟩ := by
  rw [deltaM, spin1_final_I0_S0, spin2_final_P0, spin1_initial_I0_S0, spin2_initial_I0_S0]
  ext <;> norm_num [Vec3.add, Vec3.sub]

theorem Mz_old_P0 : Mz_old P0 S0 = 2 := by
  rw [Mz_old, ppolar_vector_P0]
  norm_num [S0, Vec3.dot]

theorem Mz_new_P0 : Mz_new P0 I0 S0 = 0 := by
  rw [Mz_new, deltaM_P0, ppolar_vector_P0]
  norm_num [S0, Vec3.add, Vec3.dot]

theorem probability_P0 : probability P0 I0 S0 = 0 := by
  rw [probability, Mz_new_P0]
  simp

/-- The sphere/pair guard of cmc.cpp line 327 holds for the concrete trial. -/
theorem guard_P0 : spin2_fin_x P0 I0 S0 * spin2_fin_x P0 I0 S0 +
    spin2_fin_y P0 I0 S0 * spin2_fin_y P0 I0 S0 < 1 ∧
    I0.atom_number1 ≠ I0.atom_number2 := by
  refine ⟨?_, by norm_num [I0]⟩
  rw [spin2_fin_x_P0, spin2_fin_y_P0]
  norm_num

theorem delta_energy1_P0 : delta_energy1 P0 I0 S0 = (-1 - 1) * 1 * 1.07828231e23 := by
  rw [delta_energy1]
  show ((spins_after1 I0 S0 I0.atom_number1).z - (S0.spins I0.atom_number1).z) *
    (1 : ℝ) * 1.07828231e23 = _
  rw [spins_after1, Function.update_same, spin1_final_I0_S0]
  norm_num [S0]

theorem delta_energy2_P0 : delta_energy2 P0 I0 S0 = 0 := by
  rw [delta_energy2]
  show ((spins_after2 P0 I0 S0 I0.atom_number2).z - (spins_after1 I0 S0 I0.atom_number2).z) *
    (1 : ℝ) * 1.07828231e23 = 0
  rw [spins_after2, Function.update_same, spin2_final_P0, ← spin2_initial,
    spin2_initial_I0_S0]
  norm_num

theorem delta_energy21_P0_neg : delta_energy21 P0 I0 S0 < 0 := by
  rw [delta_energy21, delta_energy1_P0, delta_energy2_P0]
  norm_num

theorem spinSum_S0 : spinSum 2 S0.spins = ⟨0, 0, 2⟩ := by
  ext <;> simp [spinSum, S0, Finset.sum_range_succ]

/-- The accumulation loop of cmc.cpp lines 250-258 computes exactly the
spin sum. -/
theorem M_other_init_eq_spinSum (n : ℕ) (f : ℕ → Vec3) :
    M_other_init n f = spinSum n f := by
  induction n with
  | zero => ext <;> simp [M_other_init, spinSum]
  | succ k ih =>
    rw [M_other_init, List.range_succ, List.foldl_append, List.foldl_cons, List.foldl_nil,
      ← M_other_init, ih]
    ext <;> simp [spinSum, Vec3.add, Finset.sum_range_succ]

/-! ## Claim theorems -/

/-- C1 (as amended): in `CMCStep`, a geometrically valid pair move with
`delta_energy21 < 0` is accepted by the short-circuit `continue` of
cmc.cpp line 365 — both provisional spin writes are kept, the
probability `P` and the test `Mz_new ≥ 0 ∧ P ≥ uniform()` are not
applied, and neither `M_other` nor any counter is updated; the full
criterion is evaluated only when `delta_energy21 ≥ 0`. -/
theorem cmc_step_short_circuit_accepts (p : CMCParams) (inp : TrialInput) (st : CMCState)
    (hok : spin2_fin_x p inp st * spin2_fin_x p inp st +
      spin2_fin_y p inp st * spin2_fin_y p inp st < 1 ∧
      inp.atom_number1 ≠ inp.atom_number2)
    (hneg : delta_energy21 p inp st < 0) :
    CMCStep p inp st = { st with spins := spins_after2 p inp st } :=
  CMCStep_quick_accept p inp st hok hneg

/-- Witness for C1 (amended): at the concrete energy-lowering trial the
step keeps the provisional writes and changes nothing else. -/
theorem cmc_step_short_circuit_accepts_witness :
    CMCStep P0 I0 S0 = { S0 with spins := spins_after2 P0 I0 S0 } :=
  cmc_step_short_circuit_accepts P0 I0 S0 guard_P0 delta_energy21_P0_neg

/-- C1 (counterexample to the claim as stated): the source step is not
the full-evaluation step prescribed by the spec.  At the concrete
energy-lowering trial the code takes the `continue` branch (total stays
0) while full evaluation rejects the move (P = 0 < 1/2) and counts the
trial (total becomes 1). -/
theorem cmc_step_full_evaluation_cex :
    (CMCStep P0 I0 S0).mc_total = 0 ∧ (CMCStepSpec P0 I0 S0).mc_total = 1 ∧
      CMCStep P0 I0 S0 ≠ CMCStepSpec P0 I0 S0 := by
  have hcode : CMCStep P0 I0 S0 = { S0 with spins := spins_after2 P0 I0 S0 } :=
    CMCStep_quick_accept P0 I0 S0 guard_P0 delta_energy21_P0_neg
  have hrej : ¬(probability P0 I0 S0 ≥ I0.u ∧ Mz_new P0 I0 S0 ≥ 0) := by
    rw [probability_P0]
    intro h
    have h1 := h.1
    norm_num [I0] at h1
  have hspec : CMCStepSpec P0 I0 S0 =
      { S0 with spins := Function.update
                  (Function.update (spins_after2 P0 I0 S0) I0.atom_number1
                    (spin1_initial I0 S0))
                  I0.atom_number2 (spin2_initial I0 S0),
                energy_reject := S0.energy_reject + 1,
                mc_total := S0.mc_total + 1 } := by
    unfold CMCStepSpec
    rw [if_pos guard_P0, if_neg hrej]
  refine ⟨?_, ?_, ?_⟩
  · rw [hcode]
    show S0.mc_total = 0
    norm_num [S0]
  · rw [hspec]
    show S0.mc_total + 1 = 1
    norm_num [S0]
  · intro heq
    have h2 : (CMCStep P0 I0 S0).mc_total = (CMCStepSpec P0 I0 S0).mc_total := by rw [heq]
    rw [hcode, hspec] at h2
    have h3 : S0.mc_total = S0.mc_total + 1 := h2
    linarith

/-- C2 (code bug): the `delta_energy21 < 0` quick-accept path skips the
`mc_total += 1` at the end of the loop body, so this trial leaves
`mc_total` unchanged instead of incrementing it by 1. -/
theorem mc_total_unchanged_on_quick_accept :
    (CMCStep P0 I0 S0).mc_total = S0.mc_total := by
  rw [CMCStep_quick_accept P0 I0 S0 guard_P0 delta_energy21_P0_neg]

/-- C3 (code bug): on the quick-accept path both provisional spin writes
are committed but `M_other` is not updated, so after the step
`‖M_other − Σᵢ sᵢ‖² = 4`, which violates the bound
`‖M_other − Σᵢ sᵢ‖ ≤ 1e-8·N` for N = 2. -/
theorem magnetization_desync_on_quick_accept :
    (CMCStep P0 I0 S0).M_other = S0.M_other ∧
    Vec3.normSq (Vec3.sub (CMCStep P0 I0 S0).M_other
      (spinSum P0.num_atoms (CMCStep P0 I0 S0).spins)) = 4 ∧
    ((1e-8 : ℝ) * 2) ^ 2 < 4 := by
  have hstep : CMCStep P0 I0 S0 = { S0 with spins := spins_after2 P0 I0 S0 } :=
    CMCStep_quick_accept P0 I0 S0 guard_P0 delta_energy21_P0_neg
  have hsum : spinSum P0.num_atoms (spins_after2 P0 I0 S0) = ⟨0, 0, 0⟩ := by
    rw [show P0.num_atoms = 2 from rfl,
      spinSum_after2 2 P0 I0 S0 (by norm_num [I0]) (by norm_num [I0]) (by norm_num [I0]),
      spinSum_S0, deltaM_P0]
    ext <;> norm_num [Vec3.add]
  refine ⟨by rw [hstep], ?_, by norm_num⟩
  rw [hstep]
  show Vec3.normSq (Vec3.sub S0.M_other (spinSum P0.num_atoms (spins_after2 P0 I0 S0))) = 4
  rw [hsum]
  norm_num [S0, Vec3.sub, Vec3.normSq]

/-- C4: every path of `CMCStep` preserves the identity
`mc_total = mc_success + energy_reject + sphere_reject`: the three
counted paths each add 1 to `mc_total` and to exactly one of the other
counters, and the quick-accept path adds to none. -/
theorem counter_identity_preserved (p : CMCParams) (inp : TrialInput) (st : CMCState)
    (h : st.mc_total = st.mc_success + st.energy_reject + st.sphere_reject) :
    (CMCStep p inp st).mc_total =
      (CMCStep p inp st).mc_success + (CMCStep p inp st).energy_reject +
        (CMCStep p inp st).sphere_reject := by
  unfold CMCStep
  split_ifs <;> simp <;> linarith

/-- Witness for C4 at the concrete trial from zeroed counters. -/
theorem counter_identity_preserved_witness :
    (CMCStep P0 I0 S0).mc_total =
      (CMCStep P0 I0 S0).mc_success + (CMCStep P0 I0 S0).energy_reject +
        (CMCStep P0 I0 S0).sphere_reject :=
  counter_identity_preserved P0 I0 S0 (by norm_num [S0])

/-- C5: for every trial (in particular every accepted one), the change
of the total spin sum across `CMCStep`, rotated into the constraint
frame, has exactly vanishing x- and y-components: commits change the sum
by `deltaM`, whose in-plane constraint-frame components cancel by
construction (cmc.cpp lines 324-325), and reject paths restore the field. -/
theorem inplane_constraint_conserved (p : CMCParams) (inp : TrialInput) (st : CMCState)
    (h1 : inp.atom_number1 < p.num_atoms) (h2 : inp.atom_number2 < p.num_atoms) :
    ((ppolar_matrix p).mulVec (Vec3.sub (spinSum p.num_atoms (CMCStep p inp st).spins)
      (spinSum p.num_atoms st.spins))).x = 0 ∧
    ((ppolar_matrix p).mulVec (Vec3.sub (spinSum p.num_atoms (CMCStep p inp st).spins)
      (spinSum p.num_atoms st.spins))).y = 0 := by
  unfold CMCStep
  split_ifs with hok hneg hacc
  · dsimp only
    rw [spinSum_after2 p.num_atoms p inp st h1 h2 hok.2, Vec3.add_sub_cancel_left]
    exact RdeltaM_inplane p inp st
  · dsimp only
    rw [spinSum_after2 p.num_atoms p inp st h1 h2 hok.2, Vec3.add_sub_cancel_left]
    exact RdeltaM_inplane p inp st
  · dsimp only
    rw [energy_restore p inp st hok.2, Vec3.sub_self_vec, Mat3.mulVec_zero_vec]
    exact ⟨rfl, rfl⟩
  · dsimp only
    rw [sphere_restore, Vec3.sub_self_vec, Mat3.mulVec_zero_vec]
    exact ⟨rfl, rfl⟩

/-- Witness for C5 at the concrete trial. -/
theorem inplane_constraint_conserved_witness :
    ((ppolar_matrix P0).mulVec (Vec3.sub (spinSum P0.num_atoms (CMCStep P0 I0 S0).spins)
      (spinSum P0.num_atoms S0.spins))).x = 0 ∧
    ((ppolar_matrix P0).mulVec (Vec3.sub (spinSum P0.num_atoms (CMCStep P0 I0 S0).spins)
      (spinSum P0.num_atoms S0.spins))).y = 0 :=
  inplane_constraint_conserved P0 I0 S0 (by norm_num [I0, P0]) (by norm_num [I0, P0])

/-- C6: whenever the Metropolis test of cmc.cpp lines 370-371 is
evaluated (valid geometry and `delta_energy21 ≥ 0`), the probability
equals `exp(−(ΔE₁+ΔE₂)·μ_B/(k_B·T)) · (Mz_new/Mz_old)² · |s_j^cf.z / s_j′^cf.z|`,
and the move is accepted — both writes committed, `M_other` updated,
`mc_success` and `mc_total` incremented — iff `Mz_new ≥ 0` and
`P ≥ uniform()`. -/
theorem metropolis_acceptance_formula (p : CMCParams) (inp : TrialInput) (st : CMCState)
    (hok : spin2_fin_x p inp st * spin2_fin_x p inp st +
      spin2_fin_y p inp st * spin2_fin_y p inp st < 1 ∧
      inp.atom_number1 ≠ inp.atom_number2)
    (hde : ¬delta_energy21 p inp st < 0) :
    probability p inp st =
      Real.exp (-(delta_energy1 p inp st + delta_energy2 p inp st) *
          (9.27400915e-24 / (1.3806503e-23 * p.temperature))) *
        (Mz_new p inp st / Mz_old p st) ^ 2 *
        |(spin2_init_mvd p inp st).z / spin2_fin_z p inp st| ∧
    (CMCStep p inp st =
        { st with spins := spins_after2 p inp st,
                  M_other := Vec3.add st.M_other (deltaM p inp st),
                  mc_success := st.mc_success + 1,
                  mc_total := st.mc_total + 1 } ↔
      Mz_new p inp st ≥ 0 ∧ probability p inp st ≥ inp.u) := by
  constructor
  · rw [probability, delta_energy21, kBTBohr]
    have harg : -(delta_energy1 p inp st + delta_energy2 p inp st) *
        (9.27400915e-24 / (p.temperature * 1.3806503e-23)) =
        -(delta_energy1 p inp st + delta_energy2 p inp st) *
        (9.27400915e-24 / (1.3806503e-23 * p.temperature)) := by ring
    rw [harg]
    ring
  · constructor
    · intro hstep
      by_contra hc
      have hrej : ¬(probability p inp st ≥ inp.u ∧ Mz_new p inp st ≥ 0) := by
        intro hx
        exact hc ⟨hx.2, hx.1⟩
      have hr : CMCStep p inp st =
          { st with spins := Function.update
                      (Function.update (spins_after2 p inp st) inp.atom_number1
                        (spin1_initial inp st))
                      inp.atom_number2 (spin2_initial inp st),
                    energy_reject := st.energy_reject + 1,
                    mc_total := st.mc_total + 1 } := by
        unfold CMCStep
        rw [if_pos hok, if_neg hde, if_neg hrej]
      rw [hr] at hstep
      have h3 := congrArg CMCState.energy_reject hstep
      simp only at h3
      linarith
    · intro hc
      unfold CMCStep
      rw [if_pos hok, if_neg hde,
        if_pos (show probability p inp st ≥ inp.u ∧ Mz_new p inp st ≥ 0 from ⟨hc.2, hc.1⟩)]

/-- Witness for C6: with the zero energy oracle the concrete trial has
`delta_energy21 = 0`, so the test is evaluated and the formula holds. -/
theorem metropolis_acceptance_formula_witness :
    probability P1 I0 S0 =
      Real.exp (-(delta_energy1 P1 I0 S0 + delta_energy2 P1 I0 S0) *
          (9.27400915e-24 / (1.3806503e-23 * P1.temperature))) *
        (Mz_new P1 I0 S0 / Mz_old P1 S0) ^ 2 *
        |(spin2_init_mvd P1 I0 S0).z / spin2_fin_z P1 I0 S0| := by
  refine (metropolis_acceptance_formula P1 I0 S0 ⟨?_, ?_⟩ ?_).1
  · show spin2_fin_x P0 I0 S0 * spin2_fin_x P0 I0 S0 +
      spin2_fin_y P0 I0 S0 * spin2_fin_y P0 I0 S0 < 1
    rw [spin2_fin_x_P0, spin2_fin_y_P0]
    norm_num
  · norm_num [I0]
  · show ¬delta_energy21 P1 I0 S0 < 0
    rw [delta_energy21, delta_energy1, delta_energy2]
    norm_num [P1, P0]

/-- C7: `CMCStep` preserves the all-spins-unit invariant exactly (hence
within any tolerance), provided the Gaussian trial vector is nonzero:
`spin1_final` is explicitly normalized, `spin2_fin_mvd` lies on the unit
sphere by construction of its z-component, the orthogonal map back to
the lab frame preserves norms, and every reject path restores the
snapshotted unit spins. -/
theorem spins_remain_unit (p : CMCParams) (inp : TrialInput) (st : CMCState)
    (hunit : ∀ i, (st.spins i).normSq = 1)
    (ht : (spin1_pre inp st).normSq ≠ 0) :
    ∀ i, ((CMCStep p inp st).spins i).normSq = 1 := by
  intro i
  unfold CMCStep
  split_ifs with hok hneg hacc
  · dsimp only
    rcases eq_or_ne i inp.atom_number2 with rfl | hi2
    · rw [spins_after2, Function.update_same]
      exact normSq_spin2_final p inp st hok.1
    · rw [spins_after2, Function.update_noteq hi2]
      rcases eq_or_ne i inp.atom_number1 with rfl | hi1
      · rw [spins_after1, Function.update_same]
        exact normSq_spin1_final inp st ht
      · rw [spins_after1, Function.update_noteq hi1]
        exact hunit i
  · dsimp only
    rcases eq_or_ne i inp.atom_number2 with rfl | hi2
    · rw [spins_after2, Function.update_same]
      exact normSq_spin2_final p inp st hok.1
    · rw [spins_after2, Function.update_noteq hi2]
      rcases eq_or_ne i inp.atom_number1 with rfl | hi1
      · rw [spins_after1, Function.update_same]
        exact normSq_spin1_final inp st ht
      · rw [spins_after1, Function.update_noteq hi1]
        exact hunit i
  · dsimp only
    rw [energy_restore p inp st hok.2]
    exact hunit i
  · dsimp only
    rw [sphere_restore]
    exact hunit i

/-- Witness for C7 at the concrete trial: spin 0 is still a unit vector
after the step. -/
theorem spins_remain_unit_witness : ((CMCStep P0 I0 S0).spins 0).normSq = 1 :=
  spins_remain_unit P0 I0 S0
    (fun _ => by norm_num [S0, Vec3.normSq])
    (by rw [spin1_pre_I0_S0]; norm_num [Vec3.normSq]) 0

/-- C8: a trial is sphere-rejected exactly when
`s_j′^cf.x² + s_j′^cf.y² ≥ 1` or `j = i` (the proceed condition of
cmc.cpp line 327 is strict `< 1`, so the boundary value exactly 1 is
rejected); on that path the spin field is exactly restored (site j is
never modified) and `mc_total` is incremented; and whenever the proceed
condition holds, the square-root argument `1 − x² − y²` is strictly
positive and `s_j′^cf.z ≠ 0`, so the Jacobian denominator of `P` is
nonzero. -/
theorem sphere_reject_characterization (p : CMCParams) (inp : TrialInput) (st : CMCState) :
    ((CMCStep p inp st).sphere_reject = st.sphere_reject + 1 ↔
      (1 ≤ spin2_fin_x p inp st * spin2_fin_x p inp st +
        spin2_fin_y p inp st * spin2_fin_y p inp st ∨
        inp.atom_number1 = inp.atom_number2)) ∧
    ((1 ≤ spin2_fin_x p inp st * spin2_fin_x p inp st +
        spin2_fin_y p inp st * spin2_fin_y p inp st ∨
        inp.atom_number1 = inp.atom_number2) →
      (CMCStep p inp st).spins = st.spins ∧
        (CMCStep p inp st).mc_total = st.mc_total + 1) ∧
    (spin2_fin_x p inp st * spin2_fin_x p inp st +
        spin2_fin_y p inp st * spin2_fin_y p inp st < 1 →
      0 < 1 - spin2_fin_x p inp st * spin2_fin_x p inp st -
          spin2_fin_y p inp st * spin2_fin_y p inp st ∧
        spin2_fin_z p inp st ≠ 0) := by
  have hiff : (1 ≤ spin2_fin_x p inp st * spin2_fin_x p inp st +
      spin2_fin_y p inp st * spin2_fin_y p inp st ∨
      inp.atom_number1 = inp.atom_number2) ↔
      ¬(spin2_fin_x p inp st * spin2_fin_x p inp st +
        spin2_fin_y p inp st * spin2_fin_y p inp st < 1 ∧
        inp.atom_number1 ≠ inp.atom_number2) := by
    constructor
    · rintro (h | h) ⟨hx, hne⟩
      · linarith
      · exact hne h
    · intro h
      by_cases hx : spin2_fin_x p inp st * spin2_fin_x p inp st +
          spin2_fin_y p inp st * spin2_fin_y p inp st < 1
      · right
        by_contra hne
        exact h ⟨hx, hne⟩
      · left
        linarith
  have hpos : ∀ hg : spin2_fin_x p inp st * spin2_fin_x p inp st +
      spin2_fin_y p inp st * spin2_fin_y p inp st < 1 ∧
      inp.atom_number1 ≠ inp.atom_number2,
      (CMCStep p inp st).sphere_reject = st.sphere_reject := by
    intro hg
    unfold CMCStep
    rw [if_pos hg]
    split_ifs <;> rfl
  have hneg : ∀ _ : ¬(spin2_fin_x p inp st * spin2_fin_x p inp st +
      spin2_fin_y p inp st * spin2_fin_y p inp st < 1 ∧
      inp.atom_number1 ≠ inp.atom_number2),
      CMCStep p inp st =
        { st with spins := Function.update (spins_after1 inp st) inp.atom_number1
                    (spin1_initial inp st),
                  sphere_reject := st.sphere_reject + 1,
                  mc_total := st.mc_total + 1 } := by
    intro hg
    unfold CMCStep
    rw [if_neg hg]
  refine ⟨⟨?_, ?_⟩, ?_, ?_⟩
  · intro h
    rw [hiff]
    intro hg
    rw [hpos hg] at h
    linarith
  · intro h
    rw [hneg (hiff.mp h)]
  · intro h
    rw [hneg (hiff.mp h)]
    exact ⟨sphere_restore inp st, rfl⟩
  · intro h
    exact ⟨by linarith, spin2_fin_z_ne_zero p inp st h⟩

/-- Witness for C8: the trial with `j = i` is sphere-rejected. -/
theorem sphere_reject_characterization_witness :
    (CMCStep P0 I2 S0).sphere_reject = S0.sphere_reject + 1 :=
  (sphere_reject_characterization P0 I2 S0).1.mpr (Or.inr rfl)

/-- C10: every call of the sweep routine recomputes the running
magnetization from scratch as the sum of all current spins before any
trial — the magnetization value carried by the incoming state is
discarded, so the first trial of the sweep sees exactly `Σᵢ sᵢ`. -/
theorem sweep_recomputes_running_magnetization (p : CMCParams) (inps : List TrialInput)
    (st : CMCState) :
    ConstrainedMonteCarlo p inps st =
      List.foldl (fun s i => CMCStep p i s)
        { st with M_other := spinSum p.num_atoms st.spins } inps := by
  rw [ConstrainedMonteCarlo, M_other_init_eq_spinSum]

end CMCVerify
